import Mathlib

set_option maxRecDepth 4000

/-!
Shallow embedding of `src/region.rs` from the rust-s3 repository.
Rust strings are modelled as `List Char`; every string appearing in the
region module is ASCII, so the character sequence determines the UTF-8
byte sequence and byte positions coincide with character positions for
the ASCII search pattern used by `scheme` and `host`.
-/

/-- Characters of a string literal, the `List Char` view of a Rust string. -/
def str (s : String) : List Char := s.data

/-- Modelled from the spec: the repository's error type lives in the error
module, which is not part of the given fragment; parsing is total so no
value of it is ever constructed. -/
inductive S3Error where
  | mk : S3Error
  deriving DecidableEq

/-- The `Region` enum of `src/region.rs`: eighteen known-region tags plus a
`Custom` variant carrying an owned string. -/
inductive Region where
  | UsEast1
  | UsEast2
  | UsWest1
  | UsWest2
  | CaCentral1
  | ApSouth1
  | ApNortheast1
  | ApNortheast2
  | ApSoutheast1
  | ApSoutheast2
  | EuCentral1
  | EuWest1
  | EuWest2
  | EuWest3
  | SaEast1
  | DoNyc3
  | DoAms3
  | DoSgp1
  | Custom (endpoint : List Char)
  deriving DecidableEq

/-- `impl fmt::Display for Region` from `src/region.rs`. -/
def Region.display : Region → List Char
  | .UsEast1 => str "us-east-1"
  | .UsEast2 => str "us-east-2"
  | .UsWest1 => str "us-west-1"
  | .UsWest2 => str "us-west-2"
  | .CaCentral1 => str "ca-central-1"
  | .ApSouth1 => str "ap-south-1"
  | .ApNortheast1 => str "ap-northeast-1"
  | .ApNortheast2 => str "ap-northeast-2"
  | .ApSoutheast1 => str "ap-southeast-1"
  | .ApSoutheast2 => str "ap-southeast-2"
  | .EuCentral1 => str "eu-central-1"
  | .EuWest1 => str "eu-west-1"
  | .EuWest2 => str "eu-west-2"
  | .EuWest3 => str "eu-west-3"
  | .SaEast1 => str "sa-east-1"
  | .DoNyc3 => str "nyc3"
  | .DoAms3 => str "ams3"
  | .DoSgp1 => str "sgp1"
  | .Custom _ => str "custom"

/-- `impl FromStr for Region::from_str` from `src/region.rs`: a match on the
input against eighteen string literals, with a catch-all arm returning
`Ok(Custom(x.to_string()))`. -/
def from_str (s : List Char) : Except S3Error Region :=
  if s = str "us-east-1" then .ok .UsEast1
  else if s = str "us-east-2" then .ok .UsEast2
  else if s = str "us-west-1" then .ok .UsWest1
  else if s = str "us-west-2" then .ok .UsWest2
  else if s = str "ca-central-1" then .ok .CaCentral1
  else if s = str "ap-south-1" then .ok .ApSouth1
  else if s = str "ap-northeast-1" then .ok .ApNortheast1
  else if s = str "ap-northeast-2" then .ok .ApNortheast2
  else if s = str "ap-southeast-1" then .ok .ApSoutheast1
  else if s = str "ap-southeast-2" then .ok .ApSoutheast2
  else if s = str "eu-central-1" then .ok .EuCentral1
  else if s = str "eu-west-1" then .ok .EuWest1
  else if s = str "eu-west-2" then .ok .EuWest2
  else if s = str "eu-west-3" then .ok .EuWest3
  else if s = str "sa-east-1" then .ok .SaEast1
  else if s = str "nyc3" then .ok .DoNyc3
  else if s = str "ams3" then .ok .DoAms3
  else if s = str "sgp1" then .ok .DoSgp1
  else .ok (.Custom s)

instance : DecidableEq (Except S3Error Region) := fun a b =>
  match a, b with
  | .ok x, .ok y =>
    if h : x = y then isTrue (by rw [h])
    else isFalse (by intro hc; injection hc; exact h (by assumption))
  | .error x, .error y =>
    if h : x = y then isTrue (by rw [h])
    else isFalse (by intro hc; injection hc; exact h (by assumption))
  | .ok _, .error _ => isFalse (by intro hc; injection hc)
  | .error _, .ok _ => isFalse (by intro hc; injection hc)

/-- `Region::endpoint` from `src/region.rs`. -/
def Region.endpoint : Region → List Char
  | .UsEast1 => str "s3.amazonaws.com"
  | .UsEast2 => str "s3-us-east-2.amazonaws.com"
  | .UsWest1 => str "s3-us-west-1.amazonaws.com"
  | .UsWest2 => str "s3-us-west-2.amazonaws.com"
  | .CaCentral1 => str "s3-ca-central-1.amazonaws.com"
  | .ApSouth1 => str "s3-ap-south-1.amazonaws.com"
  | .ApNortheast1 => str "s3-ap-northeast-1.amazonaws.com"
  | .ApNortheast2 => str "s3-ap-northeast-2.amazonaws.com"
  | .ApSoutheast1 => str "s3-ap-southeast-1.amazonaws.com"
  | .ApSoutheast2 => str "s3-ap-southeast-2.amazonaws.com"
  | .EuCentral1 => str "s3-eu-central-1.amazonaws.com"
  | .EuWest1 => str "s3-eu-west-1.amazonaws.com"
  | .EuWest2 => str "s3-eu-west-2.amazonaws.com"
  | .EuWest3 => str "s3-eu-west-3.amazonaws.com"
  | .SaEast1 => str "s3-sa-east-1.amazonaws.com"
  | .DoNyc3 => str "nyc3.digitaloceanspaces.com"
  | .DoAms3 => str "ams3.digitaloceanspaces.com"
  | .DoSgp1 => str "sgp1.digitaloceanspaces.com"
  | .Custom endpoint => endpoint

/-- The three-character separator `"://"` searched for by `scheme` and
`host`. -/
def sep : List Char := str "://"

/-- Model of Rust `str::find` on a pattern `pat`: the least index at which
`pat` occurs in the haystack, or `none` when it does not occur. -/
def strFind (pat : List Char) : List Char → Option Nat
  | [] => if pat.isPrefixOf [] then some 0 else none
  | c :: rest =>
    if pat.isPrefixOf (c :: rest) then some 0
    else (strFind pat rest).map (fun n => n + 1)

/-- `Region::scheme` from `src/region.rs`: on `Custom(s)`, the part of `s`
before the first `"://"` when present, otherwise `"https"`; `"https"` on
every known tag. -/
def Region.scheme : Region → List Char
  | .Custom s =>
    match strFind sep s with
    | some pos => s.take pos
    | none => str "https"
  | _ => str "https"

/-- `Region::host` from `src/region.rs`: on `Custom(s)`, the part of `s`
after the first `"://"` when present, otherwise `s` itself; for known tags
the endpoint. -/
def Region.host : Region → List Char
  | .Custom s =>
    match strFind sep s with
    | some pos => s.drop (pos + 3)
    | none => s
  | r => r.endpoint

/-- Checked model of Rust slicing `&s[..i]`: the panicking branch of the
slice operation is the `none` branch. -/
def sliceTo (s : List Char) (i : Nat) : Option (List Char) :=
  if i ≤ s.length then some (s.take i) else none

/-- Checked model of Rust slicing `&s[i..]`: the panicking branch of the
slice operation is the `none` branch. -/
def sliceFrom (s : List Char) (i : Nat) : Option (List Char) :=
  if i ≤ s.length then some (s.drop i) else none

/-- The eighteen known-region tags, in source order. -/
def knownTags : List Region :=
  [.UsEast1, .UsEast2, .UsWest1, .UsWest2, .CaCentral1,
   .ApSouth1, .ApNortheast1, .ApNortheast2, .ApSoutheast1, .ApSoutheast2,
   .EuCentral1, .EuWest1, .EuWest2, .EuWest3, .SaEast1,
   .DoNyc3, .DoAms3, .DoSgp1]

/-- The eighteen known-region name strings matched by `from_str`, in source
order. -/
def knownNames : List (List Char) :=
  [str "us-east-1", str "us-east-2", str "us-west-1", str "us-west-2",
   str "ca-central-1", str "ap-south-1", str "ap-northeast-1",
   str "ap-northeast-2", str "ap-southeast-1", str "ap-southeast-2",
   str "eu-central-1", str "eu-west-1", str "eu-west-2", str "eu-west-3",
   str "sa-east-1", str "nyc3", str "ams3", str "sgp1"]

/-- The known-region name table exactly as the spec lists it: tag,
Parse/Display string, default host. This definition follows the spec's
words, to be compared against the source functions. -/
def specTable : List (Region × List Char × List Char) :=
  [(.UsEast1, str "us-east-1", str "s3.amazonaws.com"),
   (.UsEast2, str "us-east-2", str "s3-us-east-2.amazonaws.com"),
   (.UsWest1, str "us-west-1", str "s3-us-west-1.amazonaws.com"),
   (.UsWest2, str "us-west-2", str "s3-us-west-2.amazonaws.com"),
   (.CaCentral1, str "ca-central-1", str "s3-ca-central-1.amazonaws.com"),
   (.ApSouth1, str "ap-south-1", str "s3-ap-south-1.amazonaws.com"),
   (.ApNortheast1, str "ap-northeast-1", str "s3-ap-northeast-1.amazonaws.com"),
   (.ApNortheast2, str "ap-northeast-2", str "s3-ap-northeast-2.amazonaws.com"),
   (.ApSoutheast1, str "ap-southeast-1", str "s3-ap-southeast-1.amazonaws.com"),
   (.ApSoutheast2, str "ap-southeast-2", str "s3-ap-southeast-2.amazonaws.com"),
   (.EuCentral1, str "eu-central-1", str "s3-eu-central-1.amazonaws.com"),
   (.EuWest1, str "eu-west-1", str "s3-eu-west-1.amazonaws.com"),
   (.EuWest2, str "eu-west-2", str "s3-eu-west-2.amazonaws.com"),
   (.EuWest3, str "eu-west-3", str "s3-eu-west-3.amazonaws.com"),
   (.SaEast1, str "sa-east-1", str "s3-sa-east-1.amazonaws.com"),
   (.DoNyc3, str "nyc3", str "nyc3.digitaloceanspaces.com"),
   (.DoAms3, str "ams3", str "ams3.digitaloceanspaces.com"),
   (.DoSgp1, str "sgp1", str "sgp1.digitaloceanspaces.com")]

/-! ### Helper lemmas about `List.isPrefixOf` and `strFind` -/

theorem isPrefixOf_length_le :
    ∀ {p s : List Char}, p.isPrefixOf s = true → p.length ≤ s.length := by
  intro p
  induction p with
  | nil => intro s _; simp
  | cons a as ih =>
    intro s h
    cases s with
    | nil => simp [List.isPrefixOf] at h
    | cons b bs =>
      simp only [List.isPrefixOf, Bool.and_eq_true] at h
      simpa using ih h.2

theorem eq_append_drop_of_isPrefixOf :
    ∀ {p s : List Char}, p.isPrefixOf s = true → s = p ++ s.drop p.length := by
  intro p
  induction p with
  | nil => intro s _; simp
  | cons a as ih =>
    intro s h
    cases s with
    | nil => simp [List.isPrefixOf] at h
    | cons b bs =>
      simp only [List.isPrefixOf, Bool.and_eq_true, beq_iff_eq] at h
      obtain ⟨rfl, h2⟩ := h
      simpa using ih h2

theorem strFind_nil (pat : List Char) :
    strFind pat [] = if pat.isPrefixOf [] then some 0 else none := rfl

theorem strFind_cons (pat : List Char) (c : Char) (rest : List Char) :
    strFind pat (c :: rest) =
      if pat.isPrefixOf (c :: rest) then some 0
      else (strFind pat rest).map (fun n => n + 1) := rfl

theorem strFind_some_isPrefixOf {pat : List Char} :
    ∀ {s : List Char} {pos : Nat}, strFind pat s = some pos →
      pat.isPrefixOf (s.drop pos) = true := by
  intro s
  induction s with
  | nil =>
    intro pos h
    rw [strFind_nil] at h
    by_cases hc : pat.isPrefixOf ([] : List Char)
    · rw [if_pos hc] at h
      cases h
      simpa using hc
    · rw [if_neg hc] at h
      cases h
  | cons c rest ih =>
    intro pos h
    rw [strFind_cons] at h
    by_cases hc : pat.isPrefixOf (c :: rest)
    · rw [if_pos hc] at h
      cases h
      simpa using hc
    · rw [if_neg hc] at h
      cases hrest : strFind pat rest with
      | none => rw [hrest] at h; cases h
      | some n =>
        rw [hrest] at h
        simp only [Option.map_some'] at h
        cases h
        simpa using ih hrest

theorem strFind_some_min {pat : List Char} :
    ∀ {s : List Char} {pos : Nat}, strFind pat s = some pos →
      ∀ j, j < pos → pat.isPrefixOf (s.drop j) = false := by
  intro s
  induction s with
  | nil =>
    intro pos h j hj
    rw [strFind_nil] at h
    by_cases hc : pat.isPrefixOf ([] : List Char)
    · rw [if_pos hc] at h
      cases h
      omega
    · rw [if_neg hc] at h
      cases h
  | cons c rest ih =>
    intro pos h j hj
    rw [strFind_cons] at h
    by_cases hc : pat.isPrefixOf (c :: rest)
    · rw [if_pos hc] at h
      cases h
      omega
    · rw [if_neg hc] at h
      cases hrest : strFind pat rest with
      | none => rw [hrest] at h; cases h
      | some n =>
        rw [hrest] at h
        simp only [Option.map_some'] at h
        cases h
        cases j with
        | zero => simpa using Bool.eq_false_iff.mpr hc
        | succ k =>
          have hk : k < n := by omega
          simpa using ih hrest k hk

theorem strFind_none {pat : List Char} :
    ∀ {s : List Char}, strFind pat s = none →
      ∀ j, pat.isPrefixOf (s.drop j) = false := by
  intro s
  induction s with
  | nil =>
    intro h j
    rw [strFind_nil] at h
    by_cases hc : pat.isPrefixOf ([] : List Char)
    · rw [if_pos hc] at h
      cases h
    · simpa using Bool.eq_false_iff.mpr hc
  | cons c rest ih =>
    intro h j
    rw [strFind_cons] at h
    by_cases hc : pat.isPrefixOf (c :: rest)
    · rw [if_pos hc] at h
      cases h
    · rw [if_neg hc] at h
      cases hrest : strFind pat rest with
      | none =>
        cases j with
        | zero => simpa using Bool.eq_false_iff.mpr hc
        | succ k => simpa using ih hrest k
      | some n =>
        rw [hrest] at h
        simp at h

theorem strFind_eq_some_of_min {pat s : List Char} {pos : Nat}
    (h : pat.isPrefixOf (s.drop pos) = true)
    (hmin : ∀ j, j < pos → pat.isPrefixOf (s.drop j) = false) :
    strFind pat s = some pos := by
  cases hf : strFind pat s with
  | none =>
    rw [strFind_none hf pos] at h
    exact absurd h (by simp)
  | some q =>
    rcases Nat.lt_trichotomy q pos with hlt | heq | hgt
    · have hq := strFind_some_isPrefixOf hf
      rw [hmin q hlt] at hq
      exact absurd hq (by simp)
    · rw [heq]
    · have hp := strFind_some_min hf pos hgt
      rw [h] at hp
      exact absurd hp (by simp)

/-! ### Claim theorems -/

/-- C1: `from_str` is total: every input string yields `Ok` of some region;
the match against the known-region name table is exact (each table name
parses to its tag), and any string outside the table yields
`Ok(Custom(s))` with the input retained verbatim. -/
theorem c1_parse_total :
    (∀ s : List Char, ∃ r, from_str s = .ok r) ∧
    (∀ p ∈ knownNames.zip knownTags, from_str p.1 = .ok p.2) ∧
    (∀ s : List Char, s ∉ knownNames → from_str s = .ok (.Custom s)) := by
  have hz : ∀ p ∈ knownNames.zip knownTags, from_str p.1 = .ok p.2 := by decide
  have hnk : ∀ s : List Char, s ∉ knownNames → from_str s = .ok (.Custom s) := by
    intro s h
    have h1 : ¬ s = str "us-east-1" := fun e => h (by rw [e]; decide)
    have h2 : ¬ s = str "us-east-2" := fun e => h (by rw [e]; decide)
    have h3 : ¬ s = str "us-west-1" := fun e => h (by rw [e]; decide)
    have h4 : ¬ s = str "us-west-2" := fun e => h (by rw [e]; decide)
    have h5 : ¬ s = str "ca-central-1" := fun e => h (by rw [e]; decide)
    have h6 : ¬ s = str "ap-south-1" := fun e => h (by rw [e]; decide)
    have h7 : ¬ s = str "ap-northeast-1" := fun e => h (by rw [e]; decide)
    have h8 : ¬ s = str "ap-northeast-2" := fun e => h (by rw [e]; decide)
    have h9 : ¬ s = str "ap-southeast-1" := fun e => h (by rw [e]; decide)
    have h10 : ¬ s = str "ap-southeast-2" := fun e => h (by rw [e]; decide)
    have h11 : ¬ s = str "eu-central-1" := fun e => h (by rw [e]; decide)
    have h12 : ¬ s = str "eu-west-1" := fun e => h (by rw [e]; decide)
    have h13 : ¬ s = str "eu-west-2" := fun e => h (by rw [e]; decide)
    have h14 : ¬ s = str "eu-west-3" := fun e => h (by rw [e]; decide)
    have h15 : ¬ s = str "sa-east-1" := fun e => h (by rw [e]; decide)
    have h16 : ¬ s = str "nyc3" := fun e => h (by rw [e]; decide)
    have h17 : ¬ s = str "ams3" := fun e => h (by rw [e]; decide)
    have h18 : ¬ s = str "sgp1" := fun e => h (by rw [e]; decide)
    unfold from_str
    rw [if_neg h1, if_neg h2, if_neg h3, if_neg h4, if_neg h5, if_neg h6,
        if_neg h7, if_neg h8, if_neg h9, if_neg h10, if_neg h11, if_neg h12,
        if_neg h13, if_neg h14, if_neg h15, if_neg h16, if_neg h17, if_neg h18]
  refine ⟨?_, hz, hnk⟩
  intro s
  by_cases hk : s ∈ knownNames
  · rw [← List.map_fst_zip knownNames knownTags (by decide)] at hk
    obtain ⟨p, hp, hps⟩ := List.mem_map.mp hk
    exact ⟨p.2, hps ▸ hz p hp⟩
  · exact ⟨.Custom s, hnk s hk⟩

/-- C1 witness: a concrete non-table string parses to `Custom` verbatim. -/
theorem c1_parse_total_w :
    from_str (str "minio") = .ok (.Custom (str "minio")) :=
  c1_parse_total.2.2 (str "minio") (by decide)

/-- C2: for each of the eighteen known tags, displaying and re-parsing
round-trips to the same tag. -/
theorem c2_roundtrip :
    ∀ r ∈ knownTags, from_str (Region.display r) = .ok r := by decide

/-- C2 witness: the round-trip at the first known tag. -/
theorem c2_roundtrip_w :
    from_str (Region.display .UsEast1) = .ok .UsEast1 :=
  c2_roundtrip .UsEast1 (by decide)

/-- C3: the source's display string, parse behaviour and default endpoint
agree with the spec's known-region name table on every row; the table's
tags are exactly the eighteen known tags and no two rows share a name
string. -/
theorem c3_table :
    (∀ e ∈ specTable,
        Region.display e.1 = e.2.1 ∧ from_str e.2.1 = .ok e.1 ∧
        Region.endpoint e.1 = e.2.2) ∧
    specTable.map (fun e => e.1) = knownTags ∧
    (specTable.map (fun e => e.2.1)).Nodup := by
  refine ⟨by decide, by decide, by decide⟩

/-- C3 witness: the first table row evaluated. -/
theorem c3_table_w :
    Region.display .UsEast1 = str "us-east-1" ∧
    from_str (str "us-east-1") = .ok .UsEast1 ∧
    Region.endpoint .UsEast1 = str "s3.amazonaws.com" :=
  c3_table.1 (.UsEast1, str "us-east-1", str "s3.amazonaws.com") (by decide)

/-- C4: on a `Custom` payload, `scheme` returns the part strictly before
the first occurrence of `"://"` when the separator occurs, and the literal
`"https"` when it does not occur anywhere. -/
theorem c4_scheme_custom :
    (∀ (s : List Char) (pos : Nat),
        sep.isPrefixOf (s.drop pos) = true →
        (∀ j, j < pos → sep.isPrefixOf (s.drop j) = false) →
        Region.scheme (.Custom s) = s.take pos) ∧
    (∀ s : List Char, (∀ j, sep.isPrefixOf (s.drop j) = false) →
        Region.scheme (.Custom s) = str "https") := by
  constructor
  · intro s pos h hmin
    have hf := strFind_eq_some_of_min h hmin
    have hdef : Region.scheme (.Custom s) = (match strFind sep s with
      | some p => s.take p
      | none => str "https") := rfl
    rw [hdef, hf]
  · intro s h
    cases hf : strFind sep s with
    | none =>
      have hdef : Region.scheme (.Custom s) = (match strFind sep s with
        | some p => s.take p
        | none => str "https") := rfl
      rw [hdef, hf]
    | some pos =>
      have hp := strFind_some_isPrefixOf hf
      rw [h pos] at hp
      exact absurd hp (by simp)

/-- C4 witness: the scheme of a concrete payload with a separator. -/
theorem c4_scheme_custom_w :
    Region.scheme (.Custom (str "http://a")) = str "http" :=
  (c4_scheme_custom.1 (str "http://a") 4 (by decide) (by decide)).trans
    (by decide)

/-- C5: on a `Custom` payload, `host` returns the part strictly after the
first occurrence of `"://"` when the separator occurs, and the full payload
unchanged when it does not occur anywhere. -/
theorem c5_host_custom :
    (∀ (s : List Char) (pos : Nat),
        sep.isPrefixOf (s.drop pos) = true →
        (∀ j, j < pos → sep.isPrefixOf (s.drop j) = false) →
        Region.host (.Custom s) = s.drop (pos + 3)) ∧
    (∀ s : List Char, (∀ j, sep.isPrefixOf (s.drop j) = false) →
        Region.host (.Custom s) = s) := by
  constructor
  · intro s pos h hmin
    have hf := strFind_eq_some_of_min h hmin
    have hdef : Region.host (.Custom s) = (match strFind sep s with
      | some p => s.drop (p + 3)
      | none => s) := rfl
    rw [hdef, hf]
  · intro s h
    cases hf : strFind sep s with
    | none =>
      have hdef : Region.host (.Custom s) = (match strFind sep s with
        | some p => s.drop (p + 3)
        | none => s) := rfl
      rw [hdef, hf]
    | some pos =>
      have hp := strFind_some_isPrefixOf hf
      rw [h pos] at hp
      exact absurd hp (by simp)

/-- C5 witness: the host of a concrete payload with a separator. -/
theorem c5_host_custom_w :
    Region.host (.Custom (str "http://a")) = str "a" :=
  (c5_host_custom.1 (str "http://a") 4 (by decide) (by decide)).trans
    (by decide)

/-- C6: `endpoint` on a `Custom` payload returns it verbatim without
stripping a scheme, and on `"http://minio.local:9000"` the endpoint keeps
the scheme while the host strips it — the Endpoint/Host asymmetry. -/
theorem c6_endpoint_custom :
    (∀ s : List Char, Region.endpoint (.Custom s) = s) ∧
    Region.endpoint (.Custom (str "http://minio.local:9000")) =
      str "http://minio.local:9000" ∧
    Region.host (.Custom (str "http://minio.local:9000")) =
      str "minio.local:9000" ∧
    Region.scheme (.Custom (str "http://minio.local:9000")) = str "http" :=
  ⟨fun _ => rfl, rfl, by decide, by decide⟩

/-- C7: for every known tag, the endpoint equals the host and the scheme is
the literal `"https"`. -/
theorem c7_known_tags :
    ∀ r ∈ knownTags,
      Region.endpoint r = Region.host r ∧ Region.scheme r = str "https" := by
  decide

/-- C7 witness: the first known tag evaluated. -/
theorem c7_known_tags_w :
    Region.endpoint .UsEast1 = Region.host .UsEast1 ∧
    Region.scheme .UsEast1 = str "https" :=
  c7_known_tags .UsEast1 (by decide)

/-- C8: `display` on a `Custom` value is the literal `"custom"` for every
payload, never the payload itself. -/
theorem c8_display_custom :
    ∀ s : List Char, Region.display (.Custom s) = str "custom" :=
  fun _ => rfl

/-- C9: when a `Custom` payload contains the separator `"://"`, the payload
is exactly the scheme, the separator and the host concatenated — the split
loses no characters. -/
theorem c9_reconstruct (s : List Char)
    (h : ∃ i, sep.isPrefixOf (s.drop i) = true) :
    Region.scheme (.Custom s) ++ sep ++ Region.host (.Custom s) = s := by
  obtain ⟨i, hi⟩ := h
  cases hf : strFind sep s with
  | none =>
    rw [strFind_none hf i] at hi
    exact absurd hi (by simp)
  | some pos =>
    have hs : Region.scheme (.Custom s) = s.take pos := by
      have hdef : Region.scheme (.Custom s) = (match strFind sep s with
        | some p => s.take p
        | none => str "https") := rfl
      rw [hdef, hf]
    have hh : Region.host (.Custom s) = s.drop (pos + 3) := by
      have hdef : Region.host (.Custom s) = (match strFind sep s with
        | some p => s.drop (p + 3)
        | none => s) := rfl
      rw [hdef, hf]
    have hp := strFind_some_isPrefixOf hf
    have hsplit := eq_append_drop_of_isPrefixOf hp
    have hdd : (s.drop pos).drop sep.length = s.drop (pos + 3) := by
      show (s.drop pos).drop 3 = s.drop (pos + 3)
      rw [List.drop_drop, Nat.add_comm]
    rw [hs, hh, ← hdd, List.append_assoc, ← hsplit]
    exact List.take_append_drop pos s

/-- C9 witness: the reconstruction at a concrete payload. -/
theorem c9_reconstruct_w :
    Region.scheme (.Custom (str "http://a")) ++ sep ++
      Region.host (.Custom (str "http://a")) = str "http://a" :=
  c9_reconstruct (str "http://a") ⟨4, by decide⟩

/-- C10: whenever the search of `scheme`/`host` locates `"://"` at
position `pos`, both `pos` and `pos + 3` are within the payload's bounds,
so the checked models of the slicings `&s[..pos]` and `&s[pos + 3..]`
never take their out-of-range branch; the separator is three ASCII
characters, so in the UTF-8 byte view the cut positions fall on character
boundaries. -/
theorem c10_slice_safe (s : List Char) (pos : Nat)
    (h : strFind sep s = some pos) :
    pos + 3 ≤ s.length ∧
    sliceTo s pos = some (s.take pos) ∧
    sliceFrom s (pos + 3) = some (s.drop (pos + 3)) ∧
    sep.length = 3 ∧ ∀ c ∈ sep, c.toNat < 128 := by
  have hp := strFind_some_isPrefixOf h
  have hle := isPrefixOf_length_le hp
  rw [List.length_drop] at hle
  have hlen : sep.length = 3 := rfl
  rw [hlen] at hle
  have hb : pos + 3 ≤ s.length := by omega
  refine ⟨hb, ?_, ?_, rfl, by decide⟩
  · unfold sliceTo
    rw [if_pos (by omega)]
  · unfold sliceFrom
    rw [if_pos hb]

/-- C10 witness: the bounds at a concrete payload and match position. -/
theorem c10_slice_safe_w :
    4 + 3 ≤ (str "http://a").length ∧
    sliceTo (str "http://a") 4 = some ((str "http://a").take 4) ∧
    sliceFrom (str "http://a") (4 + 3) =
      some ((str "http://a").drop (4 + 3)) ∧
    sep.length = 3 ∧ ∀ c ∈ sep, c.toNat < 128 :=
  c10_slice_safe (str "http://a") 4 (by decide)
